import Mathlib

/-!
Shallow embedding of `src/ftp_sync.py`, a one-way FTP synchronization script.

Modelling conventions:

* A POSIX path is a list of name components (`FPath`).  `PurePosixPath('.')`
  and `Path('.')` are the empty list `[]`; `Path(a) / b` is `a ++ [b]`
  (pathlib normalizes away the leading `.`).
* `p.relative_to(root)` is modelled by dropping `root.length` components.
  At every call site of the script the root is a genuine prefix of `p`
  (pathlib raises `ValueError` otherwise); theorems that depend on the
  relativization carry that prefix condition as a hypothesis when needed.
* The `mlsd` size fact is a decimal string that the script parses with
  `int(...)` before comparing; the model carries the parsed integer
  directly (`size : Int`), which is faithful whenever the parse succeeds.
* Python exceptions are modelled with `Except FtpError`; `FtpError.isPerm`
  distinguishes `ftplib.error_perm` from any other exception, mirroring the
  two `except` clauses of `delete_remote_files_not_in_local`.
* The FTP client is an external collaborator: each of its operations is an
  oracle (`connect`, `login`, `prot_p`, `cwd`, `mkd`, `storbinary`,
  `delete`, `quit`) whose outcome is an input of the model.  Opening the
  local file for binary read is folded into the per-file `store` oracle.
* Python `set`s iterate in an unspecified order; they are modelled as
  deduplicated lists, and every property proved about them is
  order-independent (membership, counts, images).
-/

namespace FtpSync

/-- A POSIX path as a list of name components; `[]` is `.` (the current
directory). -/
abbrev FPath := List String

/-- `p.relative_to(root)`: drop the root components.  At every call site of
the script `root` is a prefix of `p` (for remote paths the root is `'.'`,
i.e. `[]`); pathlib raises `ValueError` otherwise, a case the script never
exercises. -/
def relative_to (p root : FPath) : FPath := p.drop root.length

/-- `PurePosixPath.as_posix`: the components joined by `/`. -/
def as_posix (p : FPath) : String := String.intercalate "/" p

/-- One tuple of the list returned by `get_remote_files`:
`(Path(dir) / name, facts['modify'], facts['size'])`, with the size fact
already parsed by `int(...)`. -/
structure RemoteEntry where
  path : FPath
  modify : String
  size : Int
deriving DecidableEq, Repr

/-- The per-file dict stored by the local walk:
`{'modify': ..., 'size': os.path.getsize(...)}` (the modification time is an
epoch timestamp; it is never consulted by the script's decisions). -/
structure LocalInfo where
  modify : Int
  size : Nat
deriving DecidableEq, Repr

/-- A Python exception: `isPerm` is true for `ftplib.error_perm`. -/
structure FtpError where
  isPerm : Bool
  msg : String
deriving DecidableEq, Repr

/-- The hard-coded local root `local_site_path = 'output'` (line 89). -/
def local_site_path : FPath := ["output"]

/-- Lines 116-126: the change-detection loop followed by the force
override.  For each local file the first remote entry with the same
relative path is looked up (`next(...)`); the file is selected when there
is none or when the remote reported size is strictly below the local size.
With `--force` the change set is replaced by all local file keys. -/
def changed_files (force : Bool) (remote_files : List RemoteEntry)
    (local_files : List (FPath × LocalInfo)) (lsp : FPath) : List FPath :=
  let changed := local_files.filterMap fun lf =>
    let remote_file := relative_to lf.1 lsp
    let remote_file_info :=
      remote_files.find? fun e => decide (relative_to e.path [] = remote_file)
    match remote_file_info with
    | none => some lf.1
    | some e => if e.size < (lf.2.size : Int) then some lf.1 else none
  if force then local_files.map (fun lf => lf.1) else changed

/-- Lines 34-41 of `delete_remote_files_not_in_local`: the set of remote
relative paths minus the set of local relative paths (Python sets modelled
as deduplicated lists). -/
def files_to_delete (remote_files : List RemoteEntry)
    (local_file_keys : List FPath) (lsp : FPath) : List FPath :=
  let local_file_paths := (local_file_keys.map fun f => relative_to f lsp).dedup
  let remote_file_paths := (remote_files.map fun f => relative_to f.path []).dedup
  remote_file_paths.filter fun p => decide (p ∉ local_file_paths)

/-- Lines 48-56: the deletion loop.  Each file gets a `delete` call on
`ftp_path / file`; the `try`/`except` clauses turn both kinds of failure
into a log line and continue with the next file.  Returns the delete calls
issued (in order) and the log lines written. -/
def deleteLoop (del : FPath → Except FtpError Unit) (ftp_path : FPath) :
    List FPath → List FPath × List String
  | [] => ([], [])
  | f :: fs =>
    let remote_full_path := ftp_path ++ f
    let line :=
      match del remote_full_path with
      | .ok _ => "Deleted: " ++ as_posix remote_full_path
      | .error e =>
        if e.isPerm then
          "Failed to delete " ++ as_posix remote_full_path ++ ": " ++ e.msg
        else
          "Unexpected error deleting " ++ as_posix remote_full_path ++ ": " ++ e.msg
    let r := deleteLoop del ftp_path fs
    (remote_full_path :: r.1, line :: r.2)

/-- Lines 30-56, `delete_remote_files_not_in_local`: computes
`files_to_delete` from the remote listing and the local file keys and runs
the deletion loop (or only prints a message when there is nothing to
delete).  Returns the delete calls issued and the lines printed. -/
def delete_remote_files_not_in_local (del : FPath → Except FtpError Unit)
    (remote_files : List RemoteEntry) (local_file_keys : List FPath)
    (lsp ftp_path : FPath) : List FPath × List String :=
  let ftd := files_to_delete remote_files local_file_keys lsp
  if ftd = [] then ([], ["No remote files to delete."])
  else
    let r := deleteLoop del ftp_path ftd
    (r.1, ("Deleting " ++ toString r.1.length ++ " remote file(s) not present locally...") :: r.2)

/-- Lines 137-139: for each local directory (already relativized), call
`mkd` when it is absent from the remote directory set.  `mkd` failures are
not caught: the first one aborts the loop.  Returns the `mkd` calls issued
and the aborting exception, if any. -/
def mirror_dirs (mkd : FPath → Except FtpError Unit) (remote_dirs : List FPath) :
    List FPath → List FPath × Option FtpError
  | [] => ([], none)
  | d :: ds =>
    if d ∈ remote_dirs then mirror_dirs mkd remote_dirs ds
    else
      match mkd d with
      | .error e => ([d], some e)
      | .ok _ =>
        let r := mirror_dirs mkd remote_dirs ds
        (d :: r.1, r.2)

/-- Lines 142-146: the upload loop.  Each file of the change set is opened
and streamed with `STOR ftp_path / file.relative_to(local_site_path)`; the
open and the transfer are one `store` oracle per target.  No per-file
handling: the first failure aborts the loop.  Returns the STOR targets
attempted (in order) and the aborting exception, if any. -/
def uploadLoop (store : FPath → Except FtpError Unit) (lsp ftp_path : FPath) :
    List FPath → List FPath × Option FtpError
  | [] => ([], none)
  | f :: fs =>
    let remote_file_path := ftp_path ++ relative_to f lsp
    match store remote_file_path with
    | .error e => ([remote_file_path], some e)
    | .ok _ =>
      let r := uploadLoop store lsp ftp_path fs
      (remote_file_path :: r.1, r.2)

/-- The inputs of one run: the CLI flag, the configured remote root, the
outcome of every FTP-client operation, and the data produced by the two
local walks (paths as reported by the walk, i.e. with the `output` root
still attached). -/
structure Env where
  force : Bool
  ftp_path : FPath
  connect : Except FtpError Unit
  login : Except FtpError Unit
  prot_p : Except FtpError Unit
  cwd : Except FtpError Unit
  /-- Outcome of `get_remote_files(ftp_client, '.')` (line 104). -/
  remote_files_result : Except FtpError (List RemoteEntry)
  /-- The dict built by the file walk of lines 107-112. -/
  local_files : List (FPath × LocalInfo)
  /-- The directories reported by the walk of lines 131-133 (full paths). -/
  local_walk_dirs : List FPath
  /-- Outcome of `get_remote_dirs(ftp_client, ftp_path)` (line 136). -/
  remote_dirs_result : Except FtpError (List FPath)
  store : FPath → Except FtpError Unit
  mkd : FPath → Except FtpError Unit
  delete : FPath → Except FtpError Unit
  quit : Except FtpError Unit

/-- The externally visible calls made by one run. -/
structure Calls where
  mkdCalls : List FPath
  storeCalls : List FPath
  deleteCalls : List FPath
  deleteLog : List String
deriving DecidableEq, Repr

/-- Calls before any were made. -/
def Calls.none : Calls := ⟨[], [], [], []⟩

/-- Lines 94-153: the body of the `try` block, run left to right; the
second component is the exception escaping the block, if any.  Every
failure other than a per-file deletion failure short-circuits the rest of
the body. -/
def tryBody (env : Env) : Calls × Option FtpError :=
  match env.connect with
  | .error e => (Calls.none, some e)
  | .ok _ =>
  match env.login with
  | .error e => (Calls.none, some e)
  | .ok _ =>
  match env.prot_p with
  | .error e => (Calls.none, some e)
  | .ok _ =>
  match env.cwd with
  | .error e => (Calls.none, some e)
  | .ok _ =>
  match env.remote_files_result with
  | .error e => (Calls.none, some e)
  | .ok remote_files =>
    let changed := changed_files env.force remote_files env.local_files local_site_path
    let local_dirs := env.local_walk_dirs.map fun d => relative_to d local_site_path
    match env.remote_dirs_result with
    | .error e => (Calls.none, some e)
    | .ok rdirs =>
      let remote_dirs := rdirs.map fun d => relative_to d env.ftp_path
      let m := mirror_dirs env.mkd remote_dirs local_dirs
      match m.2 with
      | some e => ({ Calls.none with mkdCalls := m.1 }, some e)
      | none =>
        let u := uploadLoop env.store local_site_path env.ftp_path changed
        match u.2 with
        | some e => ({ Calls.none with mkdCalls := m.1, storeCalls := u.1 }, some e)
        | none =>
          let dl := delete_remote_files_not_in_local env.delete remote_files
            (env.local_files.map fun lf => lf.1) local_site_path env.ftp_path
          match env.quit with
          | .error e => (⟨m.1, u.1, dl.1, dl.2⟩, some e)
          | .ok _ => (⟨m.1, u.1, dl.1, dl.2⟩, none)

/-- What one run leaves observable: the calls made, the top-level error
line (printed by the bare `except` of line 155), and whether the closing
banner of the `finally` block was printed. -/
structure RunResult where
  calls : Calls
  errorLine : Option String
  banner : Bool

/-- Lines 94-160: the `try`/`except`/`finally` of `__main__`.  The bare
`except Exception` turns any escaping exception into an error line; the
`finally` block prints the closing banner on every path. -/
def mainRun (env : Env) : RunResult :=
  let r := tryBody env
  { calls := r.1
    errorLine := r.2.map fun e => "Error uploading to FTP server: " ++ e.msg
    banner := true }

/-- The facts `mlsd` reports for one directory entry: the entry type
(`dir`, `file`, `cdir`, ...), the modify timestamp, and the size fact
(already parsed by `int(...)`, see the header comment). -/
structure Facts where
  type : String
  modify : String
  size : Int
deriving DecidableEq, Repr

mutual

/-- The remote file system as the enumeration sees it, rooted at the
session's working directory.  A directory is either listable (`node`, with
its `mlsd` entries in server order) or one whose `mlsd` call raises
(`err`). -/
inductive FTree where
  | err : FtpError → FTree
  | node : Entries → FTree

/-- The entries of one listable directory: name, facts, and the subtree
behind the name (never consulted for entries the script does not recurse
into). -/
inductive Entries where
  | nil : Entries
  | cons : String → Facts → FTree → Entries → Entries

end

/-- The entries as the `(name, facts, subtree)` list `mlsd` iterates. -/
def Entries.toList : Entries → List (String × Facts × FTree)
  | .nil => []
  | .cons n f t rest => (n, f, t) :: rest.toList

/-- `ftp_client.mlsd(path)` once `path` is resolved to its subtree:
the `(name, facts)` pairs, or the listing exception. -/
def mlsd : FTree → Except FtpError (List (String × Facts))
  | .err e => .error e
  | .node es => .ok (es.toList.map fun x => (x.1, x.2.1))

/-- First entry of the given name, the server's path-step resolution. -/
def Entries.lookup (n : String) : Entries → Option FTree
  | .nil => none
  | .cons m _ t rest => if m = n then some t else Entries.lookup n rest

/-- The server's resolution of a path (relative to the session's working
directory) to the subtree it names; a missing component answers like a
permission error (`550`). -/
def resolve : FTree → FPath → FTree
  | t, [] => t
  | .err e, _ :: _ => .err e
  | .node es, n :: rest =>
    match es.lookup n with
    | some t => resolve t rest
    | none => .err ⟨true, "550 " ++ n ++ ": No such file or directory"⟩

mutual

/-- Lines 10-18, `get_remote_dirs`: append the current path, list it, and
recurse into every entry whose type fact is `dir`, depth first and in
entry order.  A listing failure anywhere raises, discarding the list. -/
def get_remote_dirs : FTree → FPath → Except FtpError (List FPath)
  | .err e, _ => .error e
  | .node es, path => do
    let ds ← get_remote_dirs_entries es path
    return path :: ds

/-- The `for file_info in ftp_client.mlsd(...)` loop of
`recursive_get_dirs`, over the remaining entries. -/
def get_remote_dirs_entries : Entries → FPath → Except FtpError (List FPath)
  | .nil, _ => .ok []
  | .cons n f sub rest, path =>
    if f.type = "dir" then do
      let ds1 ← get_remote_dirs sub (path ++ [n])
      let ds2 ← get_remote_dirs_entries rest path
      return ds1 ++ ds2
    else get_remote_dirs_entries rest path

end

/-- The `for dir in remote_dirs` loop of `get_remote_files`: re-list each
collected directory and keep the entries whose type fact is `file`, paired
with their modify and size facts. -/
def files_in_dirs (t : FTree) : List FPath → Except FtpError (List RemoteEntry)
  | [] => .ok []
  | d :: ds => do
    let remote_file_list ← mlsd (resolve t d)
    let rest ← files_in_dirs t ds
    return (remote_file_list.filter fun f => f.2.type = "file").map
      (fun f => (⟨d ++ [f.1], f.2.modify, f.2.size⟩ : RemoteEntry)) ++ rest

/-- Lines 21-27, `get_remote_files`: collect the directory set, then
re-list each directory for its file entries. -/
def get_remote_files (t : FTree) (path : FPath) : Except FtpError (List RemoteEntry) := do
  let remote_dirs ← get_remote_dirs t path
  files_in_dirs t remote_dirs

/-- Specification-side predicate: `p` names a directory reachable from the
root by steps through entries whose type fact is `dir` (the root itself
included, as the empty path). -/
inductive DirPath : FTree → FPath → Prop where
  | root (es : Entries) : DirPath (.node es) []
  | step {es : Entries} {n : String} {f : Facts} {sub : FTree} {p : FPath} :
      (n, f, sub) ∈ es.toList → f.type = "dir" → DirPath sub p →
      DirPath (.node es) (n :: p)

/-- Specification-side predicate: the traversal reaches a directory whose
listing raises (through `dir`-typed entries only). -/
inductive ErrDir : FTree → Prop where
  | here (e : FtpError) : ErrDir (.err e)
  | there {es : Entries} {n : String} {f : Facts} {sub : FTree} :
      (n, f, sub) ∈ es.toList → f.type = "dir" → ErrDir sub → ErrDir (.node es)

/-- Lines 78-160, the whole `__main__` block.  Lines 79-92 (argument
parsing, the four `os.environ[...]` lookups, creating the client) run
BEFORE the `try` statement: a missing environment variable raises
`KeyError` there, which no handler catches — the process dies with a
traceback, printing neither the error line nor the closing banner
(modelled as `none`).  When all four variables are present the
`try`/`except`/`finally` of `mainRun` runs (`env` carries the parsed
configuration and the client-call outcomes). -/
def mainProgram (environ : String → Option String) (env : Env) :
    Option RunResult :=
  match environ "FTP_HOST" with
  | none => none
  | some _ =>
  match environ "FTP_USERNAME" with
  | none => none
  | some _ =>
  match environ "FTP_PASSWORD" with
  | none => none
  | some _ =>
  match environ "FTP_PATH" with
  | none => none
  | some _ => some (mainRun env)

/-- The change-detection predicate unfolded: without `--force` the change
set is the filterMap of the per-file lookup. -/
theorem changed_files_false_eq (remote_files : List RemoteEntry)
    (local_files : List (FPath × LocalInfo)) (lsp : FPath) :
    changed_files false remote_files local_files lsp
      = local_files.filterMap (fun lf =>
          match remote_files.find?
              (fun e => decide (relative_to e.path [] = relative_to lf.1 lsp)) with
          | none => some lf.1
          | some e => if e.size < (lf.2.size : Int) then some lf.1 else none) := rfl

/-- C1: without `--force`, a local file is in the change set iff no remote
entry shares its relative path or the matching (first-found) remote entry
reports a size strictly below the local size; in particular a remote
counterpart of size at least the local size keeps the file out of the
change set. -/
theorem c1_change_set_iff (remote_files : List RemoteEntry)
    (local_files : List (FPath × LocalInfo)) (lsp p : FPath) (info : LocalInfo)
    (hnodup : (local_files.map Prod.fst).Nodup)
    (hmem : (p, info) ∈ local_files) :
    (p ∈ changed_files false remote_files local_files lsp ↔
      ((∀ e ∈ remote_files, relative_to e.path [] ≠ relative_to p lsp) ∨
        (∃ e, remote_files.find?
            (fun e => decide (relative_to e.path [] = relative_to p lsp)) = some e ∧
          e.size < (info.size : Int)))) ∧
    (∀ e, remote_files.find?
          (fun e => decide (relative_to e.path [] = relative_to p lsp)) = some e →
        (info.size : Int) ≤ e.size →
        p ∉ changed_files false remote_files local_files lsp) := by
  have hkey : ∀ x ∈ local_files, x.1 = p → x = (p, info) := by
    intro x hx h1
    exact List.inj_on_of_nodup_map hnodup hx hmem h1
  have hiff : p ∈ changed_files false remote_files local_files lsp ↔
      ((∀ e ∈ remote_files, relative_to e.path [] ≠ relative_to p lsp) ∨
        (∃ e, remote_files.find?
            (fun e => decide (relative_to e.path [] = relative_to p lsp)) = some e ∧
          e.size < (info.size : Int))) := by
    rw [changed_files_false_eq, List.mem_filterMap]
    constructor
    · rintro ⟨a, ha, hga⟩
      rcases hfind : remote_files.find?
          (fun e => decide (relative_to e.path [] = relative_to a.1 lsp)) with _ | e
      · rw [hfind] at hga
        have hap : a.1 = p := by simpa using hga
        have ha2 : a = (p, info) := hkey a ha hap
        left
        intro e he
        have := List.find?_eq_none.mp hfind e he
        rw [hap] at this
        simpa using this
      · rw [hfind] at hga
        have hga2 : (if e.size < (a.2.size : Int) then some a.1 else none) = some p := hga
        by_cases hlt : e.size < (a.2.size : Int)
        · rw [if_pos hlt] at hga2
          have hap : a.1 = p := by simpa using hga2
          have ha2 : a = (p, info) := hkey a ha hap
          right
          refine ⟨e, ?_, ?_⟩
          · rw [← hap]; exact hfind
          · have : a.2 = info := by rw [ha2]
            rwa [this] at hlt
        · rw [if_neg hlt] at hga2
          exact absurd hga2 (by simp)
    · intro h
      refine ⟨(p, info), hmem, ?_⟩
      rcases h with hnone | ⟨e, hfind, hlt⟩
      · have : remote_files.find?
            (fun e => decide (relative_to e.path [] = relative_to p lsp)) = none := by
          rw [List.find?_eq_none]
          intro x hx
          simpa using hnone x hx
        simp [this]
      · simp [hfind, if_pos hlt]
  refine ⟨hiff, ?_⟩
  intro e hfind hle hp
  rcases hiff.mp hp with hall | ⟨e2, hfind2, hlt2⟩
  · have hememo : e ∈ remote_files := List.mem_of_find?_eq_some hfind
    have := List.find?_some hfind
    exact hall e hememo (by simpa using this)
  · rw [hfind] at hfind2
    have : e2 = e := by simpa using hfind2.symm
    rw [this] at hlt2
    omega

/-- Closed instance of the C1 theorem: a remote counterpart of equal size
keeps `output/a.txt` out of the change set, while a missing counterpart
puts `output/b.txt` in. -/
theorem c1_change_set_iff_witness :
    let rf : List RemoteEntry := [⟨["a.txt"], "20240101", 10⟩]
    let lf : List (FPath × LocalInfo) :=
      [(["output", "a.txt"], ⟨0, 10⟩), (["output", "b.txt"], ⟨0, 3⟩)]
    ((lf.map Prod.fst).Nodup ∧ (["output", "b.txt"], (⟨0, 3⟩ : LocalInfo)) ∈ lf) ∧
      ["output", "b.txt"] ∈ changed_files false rf lf local_site_path ∧
      ["output", "a.txt"] ∉ changed_files false rf lf local_site_path := by
  refine ⟨⟨by decide, by decide⟩, ?_, ?_⟩
  · exact (c1_change_set_iff _ _ local_site_path _ ⟨0, 3⟩ (by decide) (by decide)).1.mpr
      (Or.inl (by decide))
  · exact (c1_change_set_iff _ _ local_site_path _ ⟨0, 10⟩ (by decide) (by decide)).2
      ⟨["a.txt"], "20240101", 10⟩ (by decide) (by decide)

/-- C2: with `--force` the change set is exactly the list of local file
keys produced by the walk, whatever the remote listing holds. -/
theorem c2_force_full_upload (remote_files : List RemoteEntry)
    (local_files : List (FPath × LocalInfo)) (lsp : FPath) :
    changed_files true remote_files local_files lsp
        = local_files.map (fun lf => lf.1) ∧
      (∀ p, p ∈ changed_files true remote_files local_files lsp ↔
        ∃ info, (p, info) ∈ local_files) := by
  refine ⟨rfl, ?_⟩
  intro p
  constructor
  · intro hp
    rcases List.mem_map.mp hp with ⟨a, ha, hap⟩
    subst hap
    exact ⟨a.2, ha⟩
  · rintro ⟨i, hi⟩
    exact List.mem_map.mpr ⟨(p, i), hi, rfl⟩

/-- Closed instance of the C2 theorem: with `--force`, both local files are
selected although the remote counterpart of `a.txt` reports a larger
size. -/
theorem c2_force_full_upload_witness :
    changed_files true [⟨["a.txt"], "m", 99⟩]
        [(["output", "a.txt"], ⟨0, 5⟩), (["output", "b.txt"], ⟨0, 7⟩)]
        local_site_path
      = [["output", "a.txt"], ["output", "b.txt"]] := by
  have h := c2_force_full_upload [⟨["a.txt"], "m", 99⟩]
    [(["output", "a.txt"], ⟨0, 5⟩), (["output", "b.txt"], ⟨0, 7⟩)] local_site_path
  exact h.1.trans (by decide)

/-- The deletion loop issues one delete call per file, whatever the
outcomes of the calls. -/
theorem deleteLoop_calls (del : FPath → Except FtpError Unit) (fp : FPath)
    (fs : List FPath) :
    (deleteLoop del fp fs).1 = fs.map (fun f => fp ++ f) := by
  induction fs with
  | nil => rfl
  | cons f fs ih => simp [deleteLoop, ih]

/-- A failing delete leaves its log line in the deletion loop's output. -/
theorem deleteLoop_log_of_error (del : FPath → Except FtpError Unit) (fp : FPath)
    (fs : List FPath) (f : FPath) (e : FtpError) (hf : f ∈ fs)
    (he : del (fp ++ f) = .error e) :
    (if e.isPerm then "Failed to delete " ++ as_posix (fp ++ f) ++ ": " ++ e.msg
     else "Unexpected error deleting " ++ as_posix (fp ++ f) ++ ": " ++ e.msg)
      ∈ (deleteLoop del fp fs).2 := by
  induction fs with
  | nil => cases hf
  | cons g gs ih =>
    rcases List.mem_cons.mp hf with rfl | hmem
    · simp [deleteLoop, he]
    · exact List.mem_cons_of_mem _ (ih hmem)

/-- Membership in `files_to_delete`: remote relative paths with no local
counterpart. -/
theorem mem_files_to_delete (rf : List RemoteEntry) (lk : List FPath)
    (lsp r : FPath) :
    r ∈ files_to_delete rf lk lsp ↔
      ((∃ e ∈ rf, relative_to e.path [] = r) ∧ ∀ l ∈ lk, relative_to l lsp ≠ r) := by
  simp only [files_to_delete, List.mem_filter, List.mem_dedup, List.mem_map,
    decide_eq_true_eq]
  constructor
  · rintro ⟨⟨e, he, hr⟩, hnl⟩
    refine ⟨⟨e, he, hr⟩, ?_⟩
    intro l hl hcontra
    exact hnl ⟨l, hl, hcontra⟩
  · rintro ⟨⟨e, he, hr⟩, hnl⟩
    refine ⟨⟨e, he, hr⟩, ?_⟩
    rintro ⟨l, hl, hcontra⟩
    exact hnl l hl hcontra

/-- The delete calls of `delete_remote_files_not_in_local` are exactly
`ftp_path / r` for `r` in `files_to_delete`, whatever the call outcomes. -/
theorem delete_calls_eq (del : FPath → Except FtpError Unit)
    (rf : List RemoteEntry) (lk : List FPath) (lsp fp : FPath) :
    (delete_remote_files_not_in_local del rf lk lsp fp).1
      = (files_to_delete rf lk lsp).map (fun r => fp ++ r) := by
  by_cases h : files_to_delete rf lk lsp = []
  · simp [delete_remote_files_not_in_local, h]
  · simp [delete_remote_files_not_in_local, h, deleteLoop_calls]

/-- C3: the deletion engine issues a delete call on `ftp_path / r` exactly
for the remote relative paths `r` reported by the listing that have no
local counterpart; remote files with a local counterpart get no call. -/
theorem c3_deletion_exact (del : FPath → Except FtpError Unit)
    (rf : List RemoteEntry) (lk : List FPath) (lsp fp : FPath) :
    ((delete_remote_files_not_in_local del rf lk lsp fp).1
        = (files_to_delete rf lk lsp).map (fun r => fp ++ r)) ∧
      (∀ r, (fp ++ r) ∈ (delete_remote_files_not_in_local del rf lk lsp fp).1 ↔
        ((∃ e ∈ rf, relative_to e.path [] = r) ∧ ∀ l ∈ lk, relative_to l lsp ≠ r)) := by
  refine ⟨delete_calls_eq del rf lk lsp fp, ?_⟩
  intro r
  rw [delete_calls_eq del rf lk lsp fp, ← mem_files_to_delete rf lk lsp r]
  constructor
  · intro hr
    rcases List.mem_map.mp hr with ⟨s, hs, hsr⟩
    rwa [← List.append_cancel_left hsr]
  · intro hr
    exact List.mem_map.mpr ⟨r, hr, rfl⟩

/-- Closed instance of the C3 theorem: with local `output/a.txt` and remote
`a.txt` and `b.txt`, exactly `b.txt` gets a delete call. -/
theorem c3_deletion_exact_witness :
    (delete_remote_files_not_in_local (fun _ => .ok ())
        [⟨["a.txt"], "m", 5⟩, ⟨["b.txt"], "m", 7⟩]
        [["output", "a.txt"]] ["output"] ["site"]).1 = [["site", "b.txt"]] ∧
      (["site", "b.txt"]
          ∈ (delete_remote_files_not_in_local (fun _ => .ok ())
              [⟨["a.txt"], "m", 5⟩, ⟨["b.txt"], "m", 7⟩]
              [["output", "a.txt"]] ["output"] ["site"]).1 ↔ True) := by
  have h := c3_deletion_exact (fun _ => .ok ())
    [⟨["a.txt"], "m", 5⟩, ⟨["b.txt"], "m", 7⟩] [["output", "a.txt"]] ["output"] ["site"]
  refine ⟨h.1.trans (by decide), ?_⟩
  simp only [iff_true]
  exact (h.2 ["b.txt"]).mpr (by decide)

/-- C4: per-item failure isolation of the deletion engine.  The delete
calls issued do not depend on the call outcomes (a failure never aborts the
remaining deletions), a failing delete is logged, and the exception
escaping the whole `try` body never depends on the delete oracle. -/
theorem c4_delete_failures_isolated :
    (∀ (del del2 : FPath → Except FtpError Unit) rf lk lsp fp,
        (delete_remote_files_not_in_local del rf lk lsp fp).1
          = (delete_remote_files_not_in_local del2 rf lk lsp fp).1) ∧
      (∀ (del : FPath → Except FtpError Unit) rf lk lsp fp f e,
        f ∈ files_to_delete rf lk lsp → del (fp ++ f) = .error e →
          (fp ++ f) ∈ (delete_remote_files_not_in_local del rf lk lsp fp).1 ∧
            (if e.isPerm then "Failed to delete " ++ as_posix (fp ++ f) ++ ": " ++ e.msg
             else "Unexpected error deleting " ++ as_posix (fp ++ f) ++ ": " ++ e.msg)
              ∈ (delete_remote_files_not_in_local del rf lk lsp fp).2) ∧
      (∀ (env : Env) (d1 d2 : FPath → Except FtpError Unit),
        (tryBody { env with delete := d1 }).2 = (tryBody { env with delete := d2 }).2) := by
  refine ⟨?_, ?_, ?_⟩
  · intro del del2 rf lk lsp fp
    rw [delete_calls_eq, delete_calls_eq]
  · intro del rf lk lsp fp f e hf he
    constructor
    · rw [delete_calls_eq]
      exact List.mem_map.mpr ⟨f, hf, rfl⟩
    · have hne : files_to_delete rf lk lsp ≠ [] := by
        intro hnil
        rw [hnil] at hf
        cases hf
      simp only [delete_remote_files_not_in_local, if_neg hne]
      exact List.mem_cons_of_mem _ (deleteLoop_log_of_error del fp _ f e hf he)
  · rintro ⟨force, fp, conn, lg, pr, wd, rfres, lf, lwd, rdres, store, mk, del0, qt⟩ d1 d2
    cases conn with
    | error e => rfl
    | ok _ =>
    cases lg with
    | error e => rfl
    | ok _ =>
    cases pr with
    | error e => rfl
    | ok _ =>
    cases wd with
    | error e => rfl
    | ok _ =>
    cases rfres with
    | error e => rfl
    | ok rf =>
    cases rdres with
    | error e => rfl
    | ok rd =>
    simp only [tryBody]
    cases (mirror_dirs mk (rd.map fun d => relative_to d fp)
        (lwd.map fun d => relative_to d local_site_path)).2 with
    | some e => rfl
    | none =>
    cases (uploadLoop store local_site_path fp
        (changed_files force rf lf local_site_path)).2 with
    | some e => rfl
    | none =>
    cases qt with
    | error e => rfl
    | ok _ => rfl

/-- Closed instance of the C4 theorem: a permission failure on the single
file to delete is logged and its delete call is still issued. -/
theorem c4_delete_failures_isolated_witness :
    (["site", "b.txt"]
        ∈ (delete_remote_files_not_in_local
            (fun _ => .error ⟨true, "550"⟩) [⟨["b.txt"], "m", 7⟩]
            [["output", "a.txt"]] ["output"] ["site"]).1) ∧
      ("Failed to delete site/b.txt: 550"
          ∈ (delete_remote_files_not_in_local
              (fun _ => .error ⟨true, "550"⟩) [⟨["b.txt"], "m", 7⟩]
              [["output", "a.txt"]] ["output"] ["site"]).2) := by
  have h := (c4_delete_failures_isolated.2.1
    (fun _ => .error ⟨true, "550"⟩) [⟨["b.txt"], "m", 7⟩]
    [["output", "a.txt"]] ["output"] ["site"] ["b.txt"] ⟨true, "550"⟩
    (by decide) rfl)
  exact ⟨h.1, by simpa using h.2⟩

/-- When the mirroring loop finishes without an `mkd` failure, its calls
are exactly the local directories absent remotely, in walk order. -/
theorem mirror_dirs_calls_of_ok (mkd : FPath → Except FtpError Unit)
    (remote_dirs : List FPath) (ds : List FPath)
    (h : (mirror_dirs mkd remote_dirs ds).2 = none) :
    (mirror_dirs mkd remote_dirs ds).1
      = ds.filter (fun d => decide (d ∉ remote_dirs)) := by
  induction ds with
  | nil => rfl
  | cons d ds ih =>
    by_cases hd : d ∈ remote_dirs
    · simp only [mirror_dirs, if_pos hd] at h ⊢
      simp [ih h, List.filter_cons, hd]
    · cases hm : mkd d with
      | error e => simp [mirror_dirs, if_neg hd, hm] at h
      | ok _ =>
        simp only [mirror_dirs, if_neg hd, hm] at h ⊢
        simp [ih h, List.filter_cons, hd]

/-- A member of a duplicate-free list of paths occurs exactly once. -/
theorem count_one_of_nodup {l : List FPath} (h : l.Nodup) {d : FPath}
    (hd : d ∈ l) : l.count d = 1 := by
  induction l with
  | nil => cases hd
  | cons a l ih =>
    rcases List.mem_cons.mp hd with rfl | hmem
    · rw [List.count_cons_self, List.count_eq_zero.mpr (List.nodup_cons.mp h).1]
    · rw [List.count_cons_of_ne (by rintro rfl; exact (List.nodup_cons.mp h).1 hmem)]
      exact ih (List.nodup_cons.mp h).2 hmem

/-- C5: under a completed mirroring pass over the (duplicate-free) walk
output, a local directory absent remotely gets exactly one `mkd` call and
a local directory present remotely gets none. -/
theorem c5_mkd_exactly_once (mkd : FPath → Except FtpError Unit)
    (remote_dirs local_dirs : List FPath) (d : FPath)
    (hnodup : local_dirs.Nodup)
    (hok : (mirror_dirs mkd remote_dirs local_dirs).2 = none) :
    (d ∈ local_dirs → d ∉ remote_dirs →
        (mirror_dirs mkd remote_dirs local_dirs).1.count d = 1) ∧
      (d ∈ remote_dirs → d ∉ (mirror_dirs mkd remote_dirs local_dirs).1) := by
  constructor
  · intro hld hrd
    rw [mirror_dirs_calls_of_ok mkd remote_dirs local_dirs hok]
    have hmem : d ∈ local_dirs.filter (fun d => decide (d ∉ remote_dirs)) :=
      List.mem_filter.mpr ⟨hld, by simpa using hrd⟩
    exact count_one_of_nodup (hnodup.filter _) hmem
  · intro hrd hcon
    rw [mirror_dirs_calls_of_ok mkd remote_dirs local_dirs hok] at hcon
    have := (List.mem_filter.mp hcon).2
    simp only [decide_eq_true_eq] at this
    exact this hrd

/-- Closed instance of the C5 theorem: with local directories `a` and `b`
and remote directory `b`, exactly one `mkd` call is issued and it targets
`a`. -/
theorem c5_mkd_exactly_once_witness :
    (mirror_dirs (fun _ => .ok ()) [["b"]] [["a"], ["b"]]).1.count ["a"] = 1 ∧
      ["b"] ∉ (mirror_dirs (fun _ => .ok ()) [["b"]] [["a"], ["b"]]).1 := by
  have h1 := c5_mkd_exactly_once (fun _ => .ok ()) [["b"]] [["a"], ["b"]] ["a"]
    (by decide) rfl
  have h2 := c5_mkd_exactly_once (fun _ => .ok ()) [["b"]] [["a"], ["b"]] ["b"]
    (by decide) rfl
  exact ⟨h1.1 (by decide) (by decide), h2.2 (by decide)⟩

/-- When every store call succeeds, the upload loop transfers every file of
the change set and raises nothing. -/
theorem uploadLoop_all_ok (store : FPath → Except FtpError Unit) (lsp fp : FPath)
    (files : List FPath) (h : ∀ p, store p = .ok ()) :
    uploadLoop store lsp fp files
      = (files.map (fun f => fp ++ relative_to f lsp), none) := by
  induction files with
  | nil => rfl
  | cons f fs ih => simp [uploadLoop, h, ih]

/-- When the first failing file of the change set is `f`, the upload loop
attempts exactly the files up to and including `f` and rethrows `f`'s
exception. -/
theorem uploadLoop_error (store : FPath → Except FtpError Unit) (lsp fp : FPath)
    (pre : List FPath) (f : FPath) (post : List FPath) (e : FtpError)
    (hpre : ∀ g ∈ pre, store (fp ++ relative_to g lsp) = .ok ())
    (hf : store (fp ++ relative_to f lsp) = .error e) :
    uploadLoop store lsp fp (pre ++ f :: post)
      = ((pre ++ [f]).map (fun g => fp ++ relative_to g lsp), some e) := by
  induction pre with
  | nil => simp [uploadLoop, hf]
  | cons g gs ih =>
    have hg := hpre g (by simp)
    simp [uploadLoop, hg, ih (fun x hx => hpre x (by simp [hx]))]

/-- C6: a store failure in the upload loop aborts the run.  Only the files
up to and including the failing one are attempted, the deletion phase is
never reached, and the exception escapes the `try` body to the top-level
handler. -/
theorem c6_upload_failure_aborts (env : Env) (rff : List RemoteEntry)
    (rdirs : List FPath) (pre post : List FPath) (f : FPath) (e : FtpError)
    (hconn : env.connect = .ok ()) (hlogin : env.login = .ok ())
    (hprot : env.prot_p = .ok ()) (hcwd : env.cwd = .ok ())
    (hrf : env.remote_files_result = .ok rff)
    (hrd : env.remote_dirs_result = .ok rdirs)
    (hmkd : (mirror_dirs env.mkd (rdirs.map fun d => relative_to d env.ftp_path)
        (env.local_walk_dirs.map fun d => relative_to d local_site_path)).2 = none)
    (hchanged : changed_files env.force rff env.local_files local_site_path
        = pre ++ f :: post)
    (hpre : ∀ g ∈ pre, env.store (env.ftp_path ++ relative_to g local_site_path) = .ok ())
    (hf : env.store (env.ftp_path ++ relative_to f local_site_path) = .error e) :
    (tryBody env).1.storeCalls
        = (pre ++ [f]).map (fun g => env.ftp_path ++ relative_to g local_site_path) ∧
      (tryBody env).1.deleteCalls = [] ∧
      (tryBody env).2 = some e := by
  obtain ⟨force0, fp, conn, lg, pr, wd, rfres, lf, lwd, rdres, store0, mk0, del0, qt⟩ := env
  dsimp only at hconn hlogin hprot hcwd hrf hrd hmkd hchanged hpre hf ⊢
  subst hconn hlogin hprot hcwd hrf hrd
  have hu := uploadLoop_error store0 local_site_path fp pre f post e hpre hf
  simp only [tryBody]
  rw [hchanged]
  simp only [hmkd, hu]
  exact ⟨trivial, rfl, trivial⟩

/-- Closed instance of the C6 theorem: one local file whose store call
fails is attempted, nothing is deleted, and the exception escapes. -/
theorem c6_upload_failure_aborts_witness :
    (tryBody ⟨false, ["site"], .ok (), .ok (), .ok (), .ok (), .ok [],
          [(["output", "a.txt"], ⟨0, 5⟩)], [], .ok [],
          fun _ => .error ⟨false, "broken pipe"⟩, fun _ => .ok (),
          fun _ => .ok (), .ok ()⟩).1.storeCalls = [["site", "a.txt"]] ∧
      (tryBody ⟨false, ["site"], .ok (), .ok (), .ok (), .ok (), .ok [],
          [(["output", "a.txt"], ⟨0, 5⟩)], [], .ok [],
          fun _ => .error ⟨false, "broken pipe"⟩, fun _ => .ok (),
          fun _ => .ok (), .ok ()⟩).1.deleteCalls = [] ∧
      (tryBody ⟨false, ["site"], .ok (), .ok (), .ok (), .ok (), .ok [],
          [(["output", "a.txt"], ⟨0, 5⟩)], [], .ok [],
          fun _ => .error ⟨false, "broken pipe"⟩, fun _ => .ok (),
          fun _ => .ok (), .ok ()⟩).2 = some ⟨false, "broken pipe"⟩ := by
  have h := c6_upload_failure_aborts
    ⟨false, ["site"], .ok (), .ok (), .ok (), .ok (), .ok [],
      [(["output", "a.txt"], ⟨0, 5⟩)], [], .ok [],
      fun _ => .error ⟨false, "broken pipe"⟩, fun _ => .ok (),
      fun _ => .ok (), .ok ()⟩
    [] [] [] [] ["output", "a.txt"] ⟨false, "broken pipe"⟩
    rfl rfl rfl rfl rfl rfl rfl (by decide) (by simp) rfl
  exact ⟨h.1.trans (by decide), h.2.1, h.2.2⟩

/-- C7 counterexample: with `FTP_HOST` (and the other variables) absent
from the environment, the lookup of line 83 raises before the `try` is
entered and the process terminates with no run result — in particular no
closing banner and no error line are printed, refuting the claim that the
banner appears on every execution path. -/
theorem c7_banner_always_counterexample :
    mainProgram (fun _ => none)
        ⟨false, ["site"], .ok (), .ok (), .ok (), .ok (), .ok [], [], [],
          .ok [], fun _ => .ok (), fun _ => .ok (), fun _ => .ok (), .ok ()⟩
      = none ∧
      (∀ r : RunResult,
        mainProgram (fun _ => none)
            ⟨false, ["site"], .ok (), .ok (), .ok (), .ok (), .ok [], [], [],
              .ok [], fun _ => .ok (), fun _ => .ok (), fun _ => .ok (), .ok ()⟩
          = some r → False) := by
  refine ⟨rfl, ?_⟩
  intro r hr
  cases hr

/-- C7 amended: once the setup of lines 79-92 completes (all four
environment variables present) the `try` block is entered; from there on
the closing banner is printed on every path, and any exception escaping
the `try` body is caught at top level and printed as the error line.  A
missing environment variable instead terminates the process before the
`try`, with no banner. -/
theorem c7_banner_after_setup (environ : String → Option String) (env : Env)
    (h1 : environ "FTP_HOST" ≠ none) (h2 : environ "FTP_USERNAME" ≠ none)
    (h3 : environ "FTP_PASSWORD" ≠ none) (h4 : environ "FTP_PATH" ≠ none) :
    mainProgram environ env = some (mainRun env) ∧
      (mainRun env).banner = true ∧
      (∀ e, (tryBody env).2 = some e →
        (mainRun env).errorLine
          = some ("Error uploading to FTP server: " ++ e.msg)) ∧
      (environ "FTP_HOST" = none → mainProgram environ env = none) := by
  have hprog : mainProgram environ env = some (mainRun env) := by
    cases hh1 : environ "FTP_HOST" with
    | none => exact absurd hh1 h1
    | some v1 =>
    cases hh2 : environ "FTP_USERNAME" with
    | none => exact absurd hh2 h2
    | some v2 =>
    cases hh3 : environ "FTP_PASSWORD" with
    | none => exact absurd hh3 h3
    | some v3 =>
    cases hh4 : environ "FTP_PATH" with
    | none => exact absurd hh4 h4
    | some v4 => simp [mainProgram, hh1, hh2, hh3, hh4]
  refine ⟨hprog, rfl, ?_, ?_⟩
  · intro e he
    simp [mainRun, he]
  · intro hnone
    exact absurd hnone h1

/-- Closed instance of the amended C7 theorem: with the variables present,
a failing connect still yields the banner, and its message is printed as
the error line. -/
theorem c7_banner_after_setup_witness :
    mainProgram (fun _ => some "x")
        ⟨false, ["site"], .error ⟨false, "timeout"⟩, .ok (), .ok (), .ok (),
          .ok [], [], [], .ok [], fun _ => .ok (), fun _ => .ok (),
          fun _ => .ok (), .ok ()⟩
      = some (mainRun ⟨false, ["site"], .error ⟨false, "timeout"⟩, .ok (), .ok (),
          .ok (), .ok [], [], [], .ok [], fun _ => .ok (), fun _ => .ok (),
          fun _ => .ok (), .ok ()⟩) ∧
      (mainRun ⟨false, ["site"], .error ⟨false, "timeout"⟩, .ok (), .ok (), .ok (),
          .ok [], [], [], .ok [], fun _ => .ok (), fun _ => .ok (),
          fun _ => .ok (), .ok ()⟩).banner = true ∧
      (mainRun ⟨false, ["site"], .error ⟨false, "timeout"⟩, .ok (), .ok (), .ok (),
          .ok [], [], [], .ok [], fun _ => .ok (), fun _ => .ok (),
          fun _ => .ok (), .ok ()⟩).errorLine
        = some "Error uploading to FTP server: timeout" := by
  have h := c7_banner_after_setup (fun _ => some "x")
    ⟨false, ["site"], .error ⟨false, "timeout"⟩, .ok (), .ok (), .ok (),
      .ok [], [], [], .ok [], fun _ => .ok (), fun _ => .ok (),
      fun _ => .ok (), .ok ()⟩
    (by simp) (by simp) (by simp) (by simp)
  exact ⟨h.1, h.2.1, (h.2.2.1 ⟨false, "timeout"⟩ rfl).trans rfl⟩

/-- The delete calls of a whole run: none (the deletion phase was not
reached) or exactly the image of `files_to_delete` computed from the
pre-upload remote listing and the full local file set. -/
theorem tryBody_deleteCalls (env : Env) :
    (tryBody env).1.deleteCalls = [] ∨
      ∃ rff, env.remote_files_result = .ok rff ∧
        (tryBody env).1.deleteCalls
          = (files_to_delete rff (env.local_files.map fun lf => lf.1)
              local_site_path).map (fun r => env.ftp_path ++ r) := by
  obtain ⟨force0, fp, conn, lg, pr, wd, rfres, lf, lwd, rdres, store0, mk0, del0, qt⟩ := env
  cases conn with
  | error e => exact Or.inl rfl
  | ok _ =>
  cases lg with
  | error e => exact Or.inl rfl
  | ok _ =>
  cases pr with
  | error e => exact Or.inl rfl
  | ok _ =>
  cases wd with
  | error e => exact Or.inl rfl
  | ok _ =>
  cases rfres with
  | error e => exact Or.inl rfl
  | ok rff =>
  cases rdres with
  | error e => exact Or.inl rfl
  | ok rd =>
  simp only [tryBody]
  cases (mirror_dirs mk0 (rd.map fun d => relative_to d fp)
      (lwd.map fun d => relative_to d local_site_path)).2 with
  | some e => exact Or.inl rfl
  | none =>
  cases (uploadLoop store0 local_site_path fp
      (changed_files force0 rff lf local_site_path)).2 with
  | some e => exact Or.inl rfl
  | none =>
  cases qt with
  | error e =>
    exact Or.inr ⟨rff, rfl, delete_calls_eq del0 rff (lf.map fun x => x.1)
      local_site_path fp⟩
  | ok _ =>
    exact Or.inr ⟨rff, rfl, delete_calls_eq del0 rff (lf.map fun x => x.1)
      local_site_path fp⟩

/-- C9: every delete call issued during a run targets a path that the
pre-upload listing reported as a remote file; in particular a remote
directory (a path the listing does not report as a file) is never the
target of a delete call, and the mirroring phase contributes only `mkd`
calls. -/
theorem c9_only_listed_files_deleted (env : Env) (rff : List RemoteEntry)
    (hrf : env.remote_files_result = .ok rff) :
    (∀ p ∈ (mainRun env).calls.deleteCalls,
        ∃ e ∈ rff, p = env.ftp_path ++ relative_to e.path []) ∧
      (∀ d, (∀ e ∈ rff, relative_to e.path [] ≠ d) →
        env.ftp_path ++ d ∉ (mainRun env).calls.deleteCalls) := by
  have hcalls : (mainRun env).calls = (tryBody env).1 := rfl
  have hsub : ∀ p ∈ (tryBody env).1.deleteCalls,
      ∃ e ∈ rff, p = env.ftp_path ++ relative_to e.path [] := by
    rcases tryBody_deleteCalls env with h | ⟨rff2, hrf2, h⟩
    · rw [h]
      intro p hp
      cases hp
    · rw [hrf] at hrf2
      injection hrf2 with hrff
      subst hrff
      rw [h]
      intro p hp
      rcases List.mem_map.mp hp with ⟨r, hr, rfl⟩
      rcases (mem_files_to_delete _ _ _ _).mp hr with ⟨⟨e, he, hre⟩, _⟩
      exact ⟨e, he, by rw [hre]⟩
  constructor
  · intro p hp
    exact hsub p (by rwa [hcalls] at hp)
  · intro d hd hcon
    rcases hsub _ (by rwa [hcalls] at hcon) with ⟨e, he, heq⟩
    exact hd e he (List.append_cancel_left heq).symm

/-- Closed instance of the C9 theorem: a run that deletes remote `b.txt`
never issues a delete call on the remote directory `d` absent locally. -/
theorem c9_only_listed_files_deleted_witness :
    ["site", "d"]
      ∉ (mainRun ⟨false, ["site"], .ok (), .ok (), .ok (), .ok (),
          .ok [⟨["b.txt"], "m", 7⟩], [(["output", "a.txt"], ⟨0, 5⟩)], [],
          .ok [["site"], ["site", "d"]], fun _ => .ok (), fun _ => .ok (),
          fun _ => .ok (), .ok ()⟩).calls.deleteCalls := by
  have h := c9_only_listed_files_deleted
    ⟨false, ["site"], .ok (), .ok (), .ok (), .ok (),
      .ok [⟨["b.txt"], "m", 7⟩], [(["output", "a.txt"], ⟨0, 5⟩)], [],
      .ok [["site"], ["site", "d"]], fun _ => .ok (), fun _ => .ok (),
      fun _ => .ok (), .ok ()⟩ [⟨["b.txt"], "m", 7⟩] rfl
  exact h.2 ["d"] (by decide)

/-- C10: when every store call succeeds, the delete calls of a run do not
depend on the `--force` flag; the flag only widens the change set. -/
theorem c10_force_does_not_change_deletes (env : Env)
    (hstore : ∀ p, env.store p = .ok ()) :
    (mainRun { env with force := true }).calls.deleteCalls
      = (mainRun { env with force := false }).calls.deleteCalls := by
  obtain ⟨force0, fp, conn, lg, pr, wd, rfres, lf, lwd, rdres, store0, mk0, del0, qt⟩ := env
  simp only [mainRun]
  cases conn with
  | error e => rfl
  | ok _ =>
  cases lg with
  | error e => rfl
  | ok _ =>
  cases pr with
  | error e => rfl
  | ok _ =>
  cases wd with
  | error e => rfl
  | ok _ =>
  cases rfres with
  | error e => rfl
  | ok rff =>
  cases rdres with
  | error e => rfl
  | ok rd =>
  simp only [tryBody]
  cases (mirror_dirs mk0 (rd.map fun d => relative_to d fp)
      (lwd.map fun d => relative_to d local_site_path)).2 with
  | some e => rfl
  | none =>
  have h1 := uploadLoop_all_ok store0 local_site_path fp
    (changed_files true rff lf local_site_path) hstore
  have h2 := uploadLoop_all_ok store0 local_site_path fp
    (changed_files false rff lf local_site_path) hstore
  simp only [h1, h2]
  cases qt with
  | error e => rfl
  | ok _ => rfl

/-- Closed instance of the C10 theorem: with all stores succeeding, a run
with `--force` and one without delete the same remote file. -/
theorem c10_force_does_not_change_deletes_witness :
    (mainRun ⟨true, ["site"], .ok (), .ok (), .ok (), .ok (),
          .ok [⟨["b.txt"], "m", 7⟩], [(["output", "a.txt"], ⟨0, 5⟩)], [],
          .ok [["site"]], fun _ => .ok (), fun _ => .ok (),
          fun _ => .ok (), .ok ()⟩).calls.deleteCalls
      = (mainRun ⟨false, ["site"], .ok (), .ok (), .ok (), .ok (),
          .ok [⟨["b.txt"], "m", 7⟩], [(["output", "a.txt"], ⟨0, 5⟩)], [],
          .ok [["site"]], fun _ => .ok (), fun _ => .ok (),
          fun _ => .ok (), .ok ()⟩).calls.deleteCalls :=
  c10_force_does_not_change_deletes
    ⟨true, ["site"], .ok (), .ok (), .ok (), .ok (),
      .ok [⟨["b.txt"], "m", 7⟩], [(["output", "a.txt"], ⟨0, 5⟩)], [],
      .ok [["site"]], fun _ => .ok (), fun _ => .ok (),
      fun _ => .ok (), .ok ()⟩ (fun _ => rfl)

mutual

/-- A successful `get_remote_dirs` returns exactly the reachable directory
paths under the given root path. -/
theorem mem_get_remote_dirs (t : FTree) (path : FPath) (ds : List FPath)
    (h : get_remote_dirs t path = .ok ds) (p : FPath) :
    p ∈ ds ↔ ∃ q, p = path ++ q ∧ DirPath t q := by
  cases t with
  | err e => cases h
  | node es =>
    cases he : get_remote_dirs_entries es path with
    | error e =>
      simp only [get_remote_dirs, he] at h
      cases h
    | ok ds2 =>
      simp only [get_remote_dirs, he] at h
      have hds : path :: ds2 = ds := by injection h
      subst hds
      have ih := mem_get_remote_dirs_entries es path ds2 he p
      constructor
      · intro hp
        rcases List.mem_cons.mp hp with rfl | hmem
        · exact ⟨[], by simp, DirPath.root es⟩
        · rcases ih.mp hmem with ⟨n, f, sub, q, hent, hdir, hpq, hdp⟩
          exact ⟨n :: q, hpq, DirPath.step hent hdir hdp⟩
      · rintro ⟨q, rfl, hdp⟩
        cases hdp with
        | root es2 => simp
        | step hent hdir hdp2 =>
          exact List.mem_cons_of_mem _ (ih.mpr ⟨_, _, _, _, hent, hdir, rfl, hdp2⟩)

/-- The entry loop of `recursive_get_dirs` returns exactly the reachable
directory paths through `dir`-typed entries of the remaining list. -/
theorem mem_get_remote_dirs_entries (es : Entries) (path : FPath) (ds : List FPath)
    (h : get_remote_dirs_entries es path = .ok ds) (p : FPath) :
    p ∈ ds ↔ ∃ n f sub q, (n, f, sub) ∈ es.toList ∧ f.type = "dir" ∧
        p = path ++ n :: q ∧ DirPath sub q := by
  cases es with
  | nil =>
    have hds : ([] : List FPath) = ds := by injection h
    subst hds
    simp [Entries.toList]
  | cons n f sub rest =>
    by_cases hdir : f.type = "dir"
    · simp only [get_remote_dirs_entries, if_pos hdir] at h
      cases h1 : get_remote_dirs sub (path ++ [n]) with
      | error e =>
        rw [h1] at h
        cases h
      | ok ds1 =>
        rw [h1] at h
        cases h2 : get_remote_dirs_entries rest path with
        | error e =>
          rw [h2] at h
          cases h
        | ok ds2 =>
          rw [h2] at h
          have hds : ds1 ++ ds2 = ds := by injection h
          subst hds
          have ih1 := mem_get_remote_dirs sub (path ++ [n]) ds1 h1 p
          have ih2 := mem_get_remote_dirs_entries rest path ds2 h2 p
          constructor
          · intro hp
            rcases List.mem_append.mp hp with hp1 | hp2
            · rcases ih1.mp hp1 with ⟨q, rfl, hdp⟩
              exact ⟨n, f, sub, q, List.mem_cons_self _ _, hdir, by simp, hdp⟩
            · rcases ih2.mp hp2 with ⟨n2, f2, sub2, q, hent, hd2, hpq, hdp⟩
              exact ⟨n2, f2, sub2, q, List.mem_cons_of_mem _ hent, hd2, hpq, hdp⟩
          · rintro ⟨n2, f2, sub2, q, hent, hd2, hpq, hdp⟩
            rcases List.mem_cons.mp hent with heq | hmem
            · simp only [Prod.mk.injEq] at heq
              obtain ⟨rfl, rfl, rfl⟩ := heq
              subst hpq
              exact List.mem_append.mpr (Or.inl (ih1.mpr ⟨q, by simp, hdp⟩))
            · exact List.mem_append.mpr
                (Or.inr (ih2.mpr ⟨n2, f2, sub2, q, hmem, hd2, hpq, hdp⟩))
    · simp only [get_remote_dirs_entries, if_neg hdir] at h
      have ih := mem_get_remote_dirs_entries rest path ds h p
      rw [ih]
      constructor
      · rintro ⟨n2, f2, sub2, q, hent, hd2, hpq, hdp⟩
        exact ⟨n2, f2, sub2, q, List.mem_cons_of_mem _ hent, hd2, hpq, hdp⟩
      · rintro ⟨n2, f2, sub2, q, hent, hd2, hpq, hdp⟩
        rcases List.mem_cons.mp hent with heq | hmem
        · exfalso
          simp only [Prod.mk.injEq] at heq
          obtain ⟨-, rfl, -⟩ := heq
          exact hdir hd2
        · exact ⟨n2, f2, sub2, q, hmem, hd2, hpq, hdp⟩

end

mutual

/-- `get_remote_dirs` raises exactly when the traversal reaches a
directory whose listing raises; the exception propagates, it is not
retried. -/
theorem get_remote_dirs_error_iff (t : FTree) (path : FPath) :
    (∃ e, get_remote_dirs t path = .error e) ↔ ErrDir t := by
  cases t with
  | err e =>
    constructor
    · intro _
      exact ErrDir.here e
    · intro _
      exact ⟨e, rfl⟩
  | node es =>
    have ih := get_remote_dirs_entries_error_iff es path
    constructor
    · rintro ⟨e, he⟩
      cases h2 : get_remote_dirs_entries es path with
      | error e2 =>
        rcases ih.mp ⟨e2, h2⟩ with ⟨n, f, sub, hent, hdir, herr⟩
        exact ErrDir.there hent hdir herr
      | ok ds =>
        simp only [get_remote_dirs, h2] at he
        cases he
    · intro herr
      cases herr with
      | there hent hdir hsub =>
        rcases ih.mpr ⟨_, _, _, hent, hdir, hsub⟩ with ⟨e2, h2⟩
        exact ⟨e2, by simp [get_remote_dirs, h2]⟩

/-- The entry loop of `recursive_get_dirs` raises exactly when some
`dir`-typed entry of the remaining list leads to a failing listing. -/
theorem get_remote_dirs_entries_error_iff (es : Entries) (path : FPath) :
    (∃ e, get_remote_dirs_entries es path = .error e) ↔
      ∃ n f sub, (n, f, sub) ∈ es.toList ∧ f.type = "dir" ∧ ErrDir sub := by
  cases es with
  | nil =>
    constructor
    · rintro ⟨e, he⟩
      cases he
    · rintro ⟨n, f, sub, hent, -, -⟩
      simp [Entries.toList] at hent
  | cons n f sub rest =>
    have ihrest := get_remote_dirs_entries_error_iff rest path
    by_cases hdir : f.type = "dir"
    · have ihsub := get_remote_dirs_error_iff sub (path ++ [n])
      cases h1 : get_remote_dirs sub (path ++ [n]) with
      | error e1 =>
        constructor
        · intro _
          exact ⟨n, f, sub, List.mem_cons_self _ _, hdir, ihsub.mp ⟨e1, h1⟩⟩
        · intro _
          refine ⟨e1, ?_⟩
          simp only [get_remote_dirs_entries, if_pos hdir, h1]
          rfl
      | ok ds1 =>
        cases h2 : get_remote_dirs_entries rest path with
        | error e2 =>
          constructor
          · intro _
            rcases ihrest.mp ⟨e2, h2⟩ with ⟨n2, f2, sub2, hent, hd2, herr⟩
            exact ⟨n2, f2, sub2, List.mem_cons_of_mem _ hent, hd2, herr⟩
          · intro _
            refine ⟨e2, ?_⟩
            simp only [get_remote_dirs_entries, if_pos hdir, h1, h2]
            rfl
        | ok ds2 =>
          constructor
          · rintro ⟨e, he⟩
            exfalso
            simp only [get_remote_dirs_entries, if_pos hdir, h1, h2] at he
            cases he
          · rintro ⟨n2, f2, sub2, hent, hd2, herr⟩
            rcases List.mem_cons.mp hent with heq | hmem
            · simp only [Prod.mk.injEq] at heq
              obtain ⟨rfl, rfl, rfl⟩ := heq
              rcases ihsub.mpr herr with ⟨e, he⟩
              rw [h1] at he
              cases he
            · rcases ihrest.mpr ⟨n2, f2, sub2, hmem, hd2, herr⟩ with ⟨e, he⟩
              rw [h2] at he
              cases he
    · constructor
      · rintro ⟨e, he⟩
        simp only [get_remote_dirs_entries, if_neg hdir] at he
        rcases ihrest.mp ⟨e, he⟩ with ⟨n2, f2, sub2, hent, hd2, herr⟩
        exact ⟨n2, f2, sub2, List.mem_cons_of_mem _ hent, hd2, herr⟩
      · rintro ⟨n2, f2, sub2, hent, hd2, herr⟩
        rcases List.mem_cons.mp hent with heq | hmem
        · exfalso
          simp only [Prod.mk.injEq] at heq
          obtain ⟨-, rfl, -⟩ := heq
          exact hdir hd2
        · rcases ihrest.mpr ⟨n2, f2, sub2, hmem, hd2, herr⟩ with ⟨e, he⟩
          exact ⟨e, by simp [get_remote_dirs_entries, if_neg hdir, he]⟩

end

/-- A successful pass over the collected directories returns exactly the
`file`-typed entries of each directory's re-listing, paired with their
modify and size facts. -/
theorem mem_files_in_dirs (t : FTree) (dirs : List FPath) (fs : List RemoteEntry)
    (h : files_in_dirs t dirs = .ok fs) (r : RemoteEntry) :
    r ∈ fs ↔ ∃ d ∈ dirs, ∃ el, mlsd (resolve t d) = .ok el ∧
      ∃ nf ∈ el, nf.2.type = "file" ∧
        r = ⟨d ++ [nf.1], nf.2.modify, nf.2.size⟩ := by
  induction dirs generalizing fs with
  | nil =>
    have hfs : ([] : List RemoteEntry) = fs := by injection h
    subst hfs
    simp
  | cons d ds ih =>
    cases h1 : mlsd (resolve t d) with
    | error e =>
      simp only [files_in_dirs, h1] at h
      cases h
    | ok el =>
      cases h2 : files_in_dirs t ds with
      | error e =>
        simp only [files_in_dirs, h1, h2] at h
        cases h
      | ok rest =>
        simp only [files_in_dirs, h1, h2] at h
        have hfs : (el.filter fun f => f.2.type = "file").map
            (fun f => (⟨d ++ [f.1], f.2.modify, f.2.size⟩ : RemoteEntry)) ++ rest
              = fs := by injection h
        subst hfs
        constructor
        · intro hr
          rcases List.mem_append.mp hr with h3 | h3
          · rcases List.mem_map.mp h3 with ⟨nf, hnf, rfl⟩
            have hnf2 := List.mem_filter.mp hnf
            exact ⟨d, List.mem_cons_self _ _, el, h1, nf, hnf2.1,
              by simpa using hnf2.2, rfl⟩
          · rcases (ih rest h2).mp h3 with ⟨d2, hd2, el2, hm2, nf, hnf, hty, hr2⟩
            exact ⟨d2, List.mem_cons_of_mem _ hd2, el2, hm2, nf, hnf, hty, hr2⟩
        · rintro ⟨d2, hd2, el2, hm2, nf, hnf, hty, rfl⟩
          rcases List.mem_cons.mp hd2 with rfl | hmem
          · rw [h1] at hm2
            have hel : el = el2 := by injection hm2
            subst hel
            exact List.mem_append.mpr (Or.inl (List.mem_map.mpr
              ⟨nf, List.mem_filter.mpr ⟨hnf, by simpa using hty⟩, rfl⟩))
          · exact List.mem_append.mpr (Or.inr ((ih rest h2).mpr
              ⟨d2, hmem, el2, hm2, nf, hnf, hty, rfl⟩))

/-- C8: remote enumeration.  (1) A successful `get_remote_dirs` from the
root collects exactly the directories reachable by recursing into
`dir`-typed entries; (2) it raises exactly when the traversal reaches a
failing listing (the exception propagates, unretried); (3) a successful
`get_remote_files` returns exactly the `file`-typed entries of the
re-listing of each collected directory, paired with their modify and size
facts; (4) a reachable failing listing makes `get_remote_files` raise. -/
theorem c8_remote_enumeration :
    (∀ (t : FTree) (ds : List FPath), get_remote_dirs t [] = .ok ds →
        ∀ p, p ∈ ds ↔ DirPath t p) ∧
      (∀ t : FTree, (∃ e, get_remote_dirs t [] = .error e) ↔ ErrDir t) ∧
      (∀ (t : FTree) (fs : List RemoteEntry), get_remote_files t [] = .ok fs →
        ∀ r, r ∈ fs ↔ ∃ d, DirPath t d ∧ ∃ el, mlsd (resolve t d) = .ok el ∧
          ∃ nf ∈ el, nf.2.type = "file" ∧
            r = ⟨d ++ [nf.1], nf.2.modify, nf.2.size⟩) ∧
      (∀ t : FTree, ErrDir t → ∃ e, get_remote_files t [] = .error e) := by
  have hmem : ∀ (t : FTree) (ds : List FPath), get_remote_dirs t [] = .ok ds →
      ∀ p, p ∈ ds ↔ DirPath t p := by
    intro t ds h p
    rw [mem_get_remote_dirs t [] ds h p]
    constructor
    · rintro ⟨q, rfl, hdp⟩
      simpa using hdp
    · intro hdp
      exact ⟨p, by simp, hdp⟩
  refine ⟨hmem, fun t => get_remote_dirs_error_iff t [], ?_, ?_⟩
  · intro t fs h r
    cases hd : get_remote_dirs t [] with
    | error e =>
      simp only [get_remote_files, hd] at h
      cases h
    | ok ds =>
      simp only [get_remote_files, hd] at h
      have hfiles : files_in_dirs t ds = .ok fs := h
      rw [mem_files_in_dirs t ds fs hfiles r]
      constructor
      · rintro ⟨d, hdmem, rest⟩
        exact ⟨d, (hmem t ds hd d).mp hdmem, rest⟩
      · rintro ⟨d, hdp, rest⟩
        exact ⟨d, (hmem t ds hd d).mpr hdp, rest⟩
  · intro t herr
    rcases (get_remote_dirs_error_iff t []).mpr herr with ⟨e, he⟩
    refine ⟨e, ?_⟩
    simp only [get_remote_files, he]
    rfl

/-- Closed instance of the C8 theorem on a two-level tree: the collected
directories are the root and `sub`, `sub/f.txt` is returned with its facts,
and a tree whose subdirectory listing fails makes the enumeration raise. -/
theorem c8_remote_enumeration_witness :
    (get_remote_dirs
        (FTree.node (.cons "sub" ⟨"dir", "m1", 0⟩
          (.node (.cons "f.txt" ⟨"file", "m2", 3⟩ (.node .nil) .nil))
          (.cons "a.txt" ⟨"file", "m0", 5⟩ (.node .nil) .nil))) []
      = .ok [[], ["sub"]]) ∧
      DirPath (FTree.node (.cons "sub" ⟨"dir", "m1", 0⟩
          (.node (.cons "f.txt" ⟨"file", "m2", 3⟩ (.node .nil) .nil))
          (.cons "a.txt" ⟨"file", "m0", 5⟩ (.node .nil) .nil))) ["sub"] ∧
      (⟨["sub", "f.txt"], "m2", 3⟩ : RemoteEntry)
        ∈ [(⟨["a.txt"], "m0", 5⟩ : RemoteEntry), ⟨["sub", "f.txt"], "m2", 3⟩] ∧
      (∃ e, get_remote_dirs
          (FTree.node (.cons "bad" ⟨"dir", "m", 0⟩ (.err ⟨true, "550"⟩) .nil)) []
        = .error e) := by
  have h := c8_remote_enumeration
  have hdirs := h.1 (FTree.node (.cons "sub" ⟨"dir", "m1", 0⟩
      (.node (.cons "f.txt" ⟨"file", "m2", 3⟩ (.node .nil) .nil))
      (.cons "a.txt" ⟨"file", "m0", 5⟩ (.node .nil) .nil))) [[], ["sub"]] rfl
  have hfiles := h.2.2.1 (FTree.node (.cons "sub" ⟨"dir", "m1", 0⟩
      (.node (.cons "f.txt" ⟨"file", "m2", 3⟩ (.node .nil) .nil))
      (.cons "a.txt" ⟨"file", "m0", 5⟩ (.node .nil) .nil)))
    [⟨["a.txt"], "m0", 5⟩, ⟨["sub", "f.txt"], "m2", 3⟩] rfl
  refine ⟨rfl, (hdirs ["sub"]).mp (by decide), ?_, ?_⟩
  · exact (hfiles ⟨["sub", "f.txt"], "m2", 3⟩).mpr
      ⟨["sub"], (hdirs ["sub"]).mp (by decide),
        [("f.txt", ⟨"file", "m2", 3⟩)], rfl,
        ("f.txt", ⟨"file", "m2", 3⟩), List.mem_cons_self _ _, rfl, rfl⟩
  · exact (h.2.1 (FTree.node (.cons "bad" ⟨"dir", "m", 0⟩
        (.err ⟨true, "550"⟩) .nil))).mpr
      (ErrDir.there (List.mem_cons_self _ _) rfl (ErrDir.here ⟨true, "550"⟩))

end FtpSync
